import Mathlib

/-!
Verification development for the OAuth 1.0a request-authorization engine of
the hono-twitter-oauth repository.  The TypeScript sources are shallowly
embedded below: pure functions become Lean functions over `String`,
`List Char` and `Nat`; JavaScript objects become association lists; the
side effects of the one mutating routine are made explicit by returning the
caller-visible state.  JavaScript built-ins used by the sources (string
split, percent encoding, HMAC-SHA1, base64) are modelled by executable Lean
implementations of their documented semantics, restricted where noted.
All definitions use structural (or fuel-based) recursion so that concrete
inputs evaluate inside the kernel.
-/

namespace TwitterOAuth

/-! ## Basic character and string utilities -/

/-- Lexicographic comparison of character lists by code point, the order
JavaScript string comparison and the default array sort use (identical to
UTF-16 order for the ASCII data handled here). -/
def charListLe : List Char → List Char → Bool
  | [], _ => true
  | _ :: _, [] => false
  | a :: as, b :: bs => if a = b then charListLe as bs else decide (a.toNat < b.toNat)

/-- String comparison via `charListLe`. -/
def strLe (a b : String) : Bool := charListLe a.data b.data

/-- Embeds the JavaScript slice `s.slice(0, s.length - 1)`: the string
without its final character. -/
def chopLast (s : String) : String := String.mk s.data.dropLast

/-- Embeds JavaScript `startsWith` (equivalently `indexOf(p) === 0`). -/
def strStartsWith (s p : String) : Bool := p.data.isPrefixOf s.data

/-- Fuel-based splitter implementing the JavaScript `String.split(sep)`
semantics for a non-empty separator: the list of chunks between
non-overlapping occurrences of `sep`, scanning left to right. -/
def splitSeq (sep : List Char) : Nat → List Char → List (List Char)
  | 0, l => [l]
  | _ + 1, [] => [[]]
  | fuel + 1, c :: rest =>
    if sep.isPrefixOf (c :: rest) then
      [] :: splitSeq sep fuel ((c :: rest).drop sep.length)
    else
      match splitSeq sep fuel rest with
      | [] => [[c]]
      | cur :: parts => (c :: cur) :: parts

/-- Embeds JavaScript `s.split(sep)` for non-empty `sep`. -/
def strSplit (s sep : String) : List String :=
  (splitSeq sep.data s.data.length s.data).map String.mk

/-- ASCII upper-casing of one character, the fragment of JavaScript
`toUpperCase` exercised by HTTP method names. -/
def charUpper (c : Char) : Char :=
  if 'a' ≤ c ∧ c ≤ 'z' then Char.ofNat (c.toNat - 32) else c

/-- Embeds JavaScript `s.toUpperCase()` (ASCII fragment). -/
def strToUpper (s : String) : String := String.mk (s.data.map charUpper)

/-- Join a list of strings with a separator between consecutive elements and
no trailing separator, the target shape the spec describes for the
canonical parameter string and the Authorization header. -/
def sepJoin (sep : String) : List String → String
  | [] => ""
  | [x] => x
  | x :: y :: xs => x ++ sep ++ sepJoin sep (y :: xs)

/-! ## Insertion sort with a boolean comparison

JavaScript `Object.keys(o).sort()` and `array.sort()` sort strings
lexicographically; we model them with a stable insertion sort over
`charListLe` and prove the standard permutation and sortedness facts. -/

/-- Insert `a` in front of the first element it compares `le` to. -/
def insertLe (le : α → α → Bool) (a : α) : List α → List α
  | [] => [a]
  | b :: l => if le a b then a :: b :: l else b :: insertLe le a l

/-- Stable insertion sort by the boolean comparison `le`. -/
def sortByLe (le : α → α → Bool) (l : List α) : List α := l.foldr (insertLe le) []

theorem insertLe_perm (le : α → α → Bool) (a : α) (l : List α) :
    (insertLe le a l).Perm (a :: l) := by
  induction l with
  | nil => exact List.Perm.refl _
  | cons b t ih =>
    by_cases h : le a b
    · simp [insertLe, h]
    · simp only [insertLe, h, if_neg]
      exact ((ih.cons b).trans (List.Perm.swap a b t)).symm.symm

theorem sortByLe_perm (le : α → α → Bool) (l : List α) : (sortByLe le l).Perm l := by
  induction l with
  | nil => exact List.Perm.refl _
  | cons a t ih =>
    exact (insertLe_perm le a (sortByLe le t)).trans (ih.cons a)

theorem insertLe_pairwise (le : α → α → Bool)
    (htot : ∀ a b, le a b = true ∨ le b a = true)
    (htrans : ∀ a b c, le a b = true → le b c = true → le a c = true)
    (a : α) (l : List α) (hl : l.Pairwise (fun x y => le x y = true)) :
    (insertLe le a l).Pairwise (fun x y => le x y = true) := by
  induction l with
  | nil => simp [insertLe]
  | cons b t ih =>
    rcases hl with _ | ⟨hb, ht⟩
    by_cases h : le a b
    · simp only [insertLe, h, if_pos]
      refine List.Pairwise.cons ?_ (List.Pairwise.cons hb ht)
      intro x hx
      rcases List.mem_cons.mp hx with rfl | hx
      · exact h
      · exact htrans a b x h (hb x hx)
    · have hba : le b a = true := (htot a b).resolve_left h
      simp only [insertLe, h, if_neg, Bool.false_eq_true, not_false_iff]
      refine List.Pairwise.cons ?_ (ih ht)
      intro x hx
      have hm : x ∈ a :: t := (insertLe_perm le a t).mem_iff.mp hx
      rcases List.mem_cons.mp hm with rfl | hx
      · exact hba
      · exact hb x hx

theorem sortByLe_pairwise (le : α → α → Bool)
    (htot : ∀ a b, le a b = true ∨ le b a = true)
    (htrans : ∀ a b c, le a b = true → le b c = true → le a c = true)
    (l : List α) : (sortByLe le l).Pairwise (fun x y => le x y = true) := by
  induction l with
  | nil => simp [sortByLe]
  | cons a t ih => exact insertLe_pairwise le htot htrans a (sortByLe le t) ih

theorem charListLe_total (a b : List Char) : charListLe a b = true ∨ charListLe b a = true := by
  induction a generalizing b with
  | nil => left; rfl
  | cons x xs ih =>
    cases b with
    | nil => right; rfl
    | cons y ys =>
      by_cases hxy : x = y
      · subst hxy
        simpa [charListLe] using ih ys
      · have hyx : ¬ y = x := fun h => hxy h.symm
        rcases Nat.lt_trichotomy x.toNat y.toNat with h | h | h
        · left; simp [charListLe, hxy, h]
        · exact absurd (Char.ofNat_toNat x ▸ Char.ofNat_toNat y ▸ congrArg Char.ofNat h) hxy
        · right; simp [charListLe, hyx, h]

theorem charListLe_trans (a b c : List Char) (hab : charListLe a b = true)
    (hbc : charListLe b c = true) : charListLe a c = true := by
  induction a generalizing b c with
  | nil => rfl
  | cons x xs ih =>
    cases b with
    | nil => simp [charListLe] at hab
    | cons y ys =>
      cases c with
      | nil => simp [charListLe] at hbc
      | cons z zs =>
        by_cases hxy : x = y
        · subst hxy
          by_cases hyz : x = z
          · subst hyz
            simp only [charListLe, if_pos rfl] at hab hbc ⊢
            exact ih ys zs hab hbc
          · simp only [charListLe, if_pos rfl] at hab
            simpa [charListLe, hyz] using hbc
        · by_cases hyz : y = z
          · subst hyz
            simpa [charListLe, hxy] using hab
          · have h1 : x.toNat < y.toNat := by simpa [charListLe, hxy] using hab
            have h2 : y.toNat < z.toNat := by simpa [charListLe, hyz] using hbc
            have hxz : ¬ x = z := by
              intro h; subst h
              exact absurd (Nat.lt_trans h1 h2) (Nat.lt_irrefl _)
            simp [charListLe, hxz, Nat.lt_trans h1 h2]

theorem strLe_total (a b : String) : strLe a b = true ∨ strLe b a = true :=
  charListLe_total a.data b.data

theorem strLe_trans (a b c : String) (hab : strLe a b = true) (hbc : strLe b c = true) :
    strLe a c = true :=
  charListLe_trans a.data b.data c.data hab hbc

theorem charListLe_antisymm (a b : List Char) (hab : charListLe a b = true)
    (hba : charListLe b a = true) : a = b := by
  induction a generalizing b with
  | nil =>
    cases b with
    | nil => rfl
    | cons y ys => simp [charListLe] at hba
  | cons x xs ih =>
    cases b with
    | nil => simp [charListLe] at hab
    | cons y ys =>
      by_cases hxy : x = y
      · subst hxy
        simp only [charListLe, if_pos rfl] at hab hba
        exact congrArg (x :: ·) (ih ys hab hba)
      · have hyx : ¬ y = x := fun h => hxy h.symm
        have h1 : x.toNat < y.toNat := by simpa [charListLe, hxy] using hab
        have h2 : y.toNat < x.toNat := by simpa [charListLe, hyx] using hba
        exact absurd (Nat.lt_trans h1 h2) (Nat.lt_irrefl _)

theorem strLe_antisymm (a b : String) (hab : strLe a b = true) (hba : strLe b a = true) :
    a = b := by
  cases a; cases b
  exact congrArg String.mk (charListLe_antisymm _ _ hab hba)

/-! ## Percent encoding

The repository imports `percentEncode` from `src/encode.ts`, a file that is
not part of the staged sources; it is therefore modelled from the spec. -/

/-- Uppercase hexadecimal digit for a value below 16. -/
def hexDigitUpper (n : Nat) : Char :=
  if n < 10 then Char.ofNat (48 + n) else Char.ofNat (55 + n)

/-- UTF-8 bytes of one code point. -/
def utf8EncodeChar (n : Nat) : List Nat :=
  if n < 128 then [n]
  else if n < 2048 then [192 + n / 64, 128 + n % 64]
  else if n < 65536 then [224 + n / 4096, 128 + n / 64 % 64, 128 + n % 64]
  else [240 + n / 262144, 128 + n / 4096 % 64, 128 + n / 64 % 64, 128 + n % 64]

/-- UTF-8 bytes of a string. -/
def utf8Bytes (s : String) : List Nat :=
  (s.data.map (fun c => utf8EncodeChar c.toNat)).flatten

/-- RFC 3986 unreserved bytes: `A-Z a-z 0-9 - _ . ~`. -/
def isUnreservedByte (b : Nat) : Bool :=
  (65 ≤ b ∧ b ≤ 90) ∨ (97 ≤ b ∧ b ≤ 122) ∨ (48 ≤ b ∧ b ≤ 57) ∨ b = 45 ∨ b = 95 ∨ b = 46 ∨ b = 126

/-- Modelled from the spec: the missing `src/encode.ts` percent encoder.
Section 4.1 of the spec: RFC 3986 percent encoding where unreserved
characters `A-Z a-z 0-9 - _ . ~` stay unencoded and every other byte of the
UTF-8 encoding becomes `%XX` with uppercase hexadecimal digits. -/
def percentEncode (s : String) : String :=
  String.mk ((utf8Bytes s).map (fun b =>
    if isUnreservedByte b then [Char.ofNat b]
    else ['%', hexDigitUpper (b / 16), hexDigitUpper (b % 16)])).flatten

/-- Percent decoding of `%XX` escapes, modelling the JavaScript built-in
`decodeURIComponent` on the ASCII inputs the claims exercise: an escape
becomes the byte it names, every other character passes through (multi-byte
UTF-8 reassembly and the exception on malformed escapes are outside the
scope of the claims). -/
def hexVal (c : Char) : Option Nat :=
  if '0' ≤ c ∧ c ≤ '9' then some (c.toNat - 48)
  else if 'A' ≤ c ∧ c ≤ 'F' then some (c.toNat - 55)
  else if 'a' ≤ c ∧ c ≤ 'f' then some (c.toNat - 87)
  else none

/-- Character-list worker for `decodeURIComponentModel`. -/
def percentDecodeChars : List Char → List Char
  | '%' :: h1 :: h2 :: rest =>
    match hexVal h1, hexVal h2 with
    | some a, some b => Char.ofNat (a * 16 + b) :: percentDecodeChars rest
    | _, _ => '%' :: percentDecodeChars (h1 :: h2 :: rest)
  | c :: rest => c :: percentDecodeChars rest
  | [] => []

/-- Model of the JavaScript `decodeURIComponent` built-in (ASCII fragment). -/
def decodeURIComponentModel (s : String) : String :=
  String.mk (percentDecodeChars s.data)

/-! ## JavaScript objects as association lists

A JavaScript object literal is modelled by an association list in property
insertion order; its keys are unique.  Parameter values are a string or an
array of strings, the two shapes `oauth1.ts` handles. -/

/-- Value of one parameter: a scalar string or an array of strings. -/
inductive PVal where
  | str : String → PVal
  | arr : List String → PVal
deriving DecidableEq

/-- Association-list lookup, modelling `o[key]` on an object. -/
def jsLookup (l : List (String × PVal)) (k : String) : Option PVal :=
  (l.find? (fun p => p.1 = k)).map (fun p => p.2)

/-- Modelling `o[key] = v`: replace the value in place when the key exists,
append the property otherwise. -/
def jsSet (l : List (String × PVal)) (k : String) (v : PVal) : List (String × PVal) :=
  if l.any (fun p => p.1 = k) then
    l.map (fun p => if p.1 = k then (k, v) else p)
  else l ++ [(k, v)]

/-! ## oauth1.ts: the parameter canonicalizer -/

/-- Embeds `mergeObject` of `src/oauth1.ts` (lines 181-189), the object
spread `\x7b ...obj1, ...obj2 \x7d`: keys of the first object in order with
values overridden by the second object, then the new keys of the second. -/
def mergeObject (obj1 obj2 : List (String × PVal)) : List (String × PVal) :=
  (obj1.map (fun p => (p.1, (jsLookup obj2 p.1).getD p.2)))
    ++ obj2.filter (fun p => ¬ (obj1.any (fun q => q.1 = p.1)))

/-- Embeds `sortObject` of `src/oauth1.ts` (lines 191-195):
`Object.keys(data).sort()` followed by the key-to-pair map, i.e. the
entries sorted lexicographically by key. -/
def sortObject (data : List (String × PVal)) : List (String × PVal) :=
  sortByLe (fun a b => strLe a.1 b.1) data

/-- Embeds `percentEncodeData` of `src/oauth1.ts` (lines 231-248): percent
encode every key and every value, each array element individually. -/
def percentEncodeData (data : List (String × PVal)) : List (String × PVal) :=
  data.map (fun p =>
    (percentEncode p.1,
      match p.2 with
      | PVal.str v => PVal.str (percentEncode v)
      | PVal.arr vs => PVal.arr (vs.map percentEncode)))

/-- Embeds the array-branch loop of `getParameterString` (lines 156-163 of
`src/oauth1.ts`): `value.forEach((item, i) => ...)` appending
`key=item` and then a separator whenever `i < value.length` — a condition
that always holds, so every element gets a trailing ampersand.  `len` is
the fixed `value.length` the source closure reads, `i` the running index. -/
def arrLoop (key : String) (len : Nat) : Nat → List String → String
  | _, [] => ""
  | i, item :: rest =>
    (key ++ "=" ++ item ++ (if i < len then "&" else "")) ++ arrLoop key len (i + 1) rest

/-- Embeds one iteration of the serialization loop of `getParameterString`
(lines 149-169 of `src/oauth1.ts`): an array value is sorted and expanded
into one `key=value&` piece per element, a scalar contributes a single
`key=value&` piece. -/
def entryString (p : String × PVal) : String :=
  match p.2 with
  | PVal.str v => p.1 ++ "=" ++ v ++ "&"
  | PVal.arr vs =>
    let sorted := sortByLe strLe vs
    arrLoop p.1 sorted.length 0 sorted

/-- Embeds the serialization tail of `getParameterString` (lines 147-172 of
`src/oauth1.ts`): concatenate the pieces and remove the final character. -/
def serializeEntries (entries : List (String × PVal)) : String :=
  chopLast (String.join (entries.map entryString))

/-- The canonical parameter string of an already merged parameter map:
`sortObject (percentEncodeData merged)` serialized, the composition
`getParameterString` applies after merging (lines 138-172 of
`src/oauth1.ts`). -/
def canonicalParamString (merged : List (String × PVal)) : String :=
  serializeEntries (sortObject (percentEncodeData merged))

/-- Embeds `deParam` of `src/oauth1.ts` (lines 197-221), one key=value
couple at a time.  The source guard `if (data[key])` is JavaScript
truthiness on the stored value: an absent key and a key holding the empty
string both fail it. -/
def jsTruthy : Option PVal → Bool
  | none => false
  | some (PVal.str s) => ¬ (s = "")
  | some (PVal.arr _) => true

/-- One loop iteration of `deParam`: split the couple on `=`, then either
append to the (array-wrapped) existing value or store the decoded value. -/
def deParamStep (data : List (String × PVal)) (coupleKeyValue : String) :
    List (String × PVal) :=
  let parts := strSplit coupleKeyValue "="
  let key := parts.headD ""
  let value := (parts.getD 1 "")
  if jsTruthy (jsLookup data key) then
    match jsLookup data key with
    | some (PVal.arr l) => jsSet data key (PVal.arr (l ++ [decodeURIComponentModel value]))
    | some (PVal.str s) => jsSet data key (PVal.arr ([s] ++ [decodeURIComponentModel value]))
    | none => jsSet data key (PVal.str (decodeURIComponentModel value))
  else jsSet data key (PVal.str (decodeURIComponentModel value))

/-- Embeds `deParam` of `src/oauth1.ts`: fold `deParamStep` over the
ampersand-separated couples. -/
def deParam (s : String) : List (String × PVal) :=
  (strSplit s "&").foldl deParamStep []

/-- Embeds `deParamUrl` of `src/oauth1.ts` (lines 223-229). -/
def deParamUrl (url : String) : List (String × PVal) :=
  let tmp := strSplit url "?"
  if tmp.length = 1 then [] else deParam (tmp.getD 1 "")

/-! ## oauth1.ts: request options, base string and signing key -/

/-- Embeds the `OAuth1Tokens` type of `src/oauth1.ts`. -/
structure OAuth1Tokens where
  key : String
  secret : String
deriving DecidableEq

/-- Embeds `Partial OAuth1Tokens`: both fields may be absent. -/
structure PartialOAuth1Tokens where
  key : Option String
  secret : Option String
deriving DecidableEq

/-- Embeds `OAuth1RequestOptions` of `src/oauth1.ts`; the dynamic `data`
map is an association list. -/
structure OAuth1RequestOptions where
  url : String
  method : String
  data : List (String × PVal)
deriving DecidableEq

/-- Embeds `getParameterString` of `src/oauth1.ts` (lines 134-173): merge
the OAuth parameters over the request data over the query-string
parameters of the URL, then canonicalize. -/
def getParameterString (request : OAuth1RequestOptions)
    (oauthInfo : List (String × PVal)) : String :=
  canonicalParamString (mergeObject oauthInfo (mergeObject request.data (deParamUrl request.url)))

/-- Embeds `getBaseUrl` of `src/oauth1.ts` (lines 175-177):
`url.split("?")[0]`. -/
def getBaseUrl (url : String) : String := (strSplit url "?").headD ""

/-- Embeds `getBaseString` of `src/oauth1.ts` (lines 121-132). -/
def getBaseString (request : OAuth1RequestOptions)
    (oauthInfo : List (String × PVal)) : String :=
  strToUpper request.method ++ "&" ++ percentEncode (getBaseUrl request.url) ++ "&"
    ++ percentEncode (getParameterString request oauthInfo)

/-- Embeds `getSigningKey` of `src/oauth1.ts` (lines 114-119); the
JavaScript `tokenSecret || ""` collapses an absent secret to the empty
string (an empty string is mapped to itself either way). -/
def getSigningKey (consumerSecret : String) (tokenSecret : Option String) : String :=
  percentEncode consumerSecret ++ "&" ++ percentEncode (tokenSecret.getD "")

/-! ## SHA-1, HMAC and base64

`hash` in `src/oauth1.ts` (lines 250-252) calls the node `crypto` built-in
`createHmac("sha1", key).update(base).digest("base64")`.  The built-in is
modelled by a full executable implementation: SHA-1 per FIPS 180, HMAC per
RFC 2104, base64 with the standard padded alphabet.  All words are `Nat`
reduced modulo `2 ^ 32` where overflow matters. -/

/-- Rotate a 32-bit word left by `n` bits. -/
def rotl32 (n x : Nat) : Nat :=
  ((x * 2 ^ n) % 4294967296) + (x % 4294967296) / 2 ^ (32 - n)

/-- Split a list into chunks of `n` elements (fuel-based so that the kernel
can evaluate it). -/
def chunksF (n : Nat) : Nat → List α → List (List α)
  | 0, _ => []
  | _ + 1, [] => []
  | fuel + 1, l => l.take n :: chunksF n fuel (l.drop n)

/-- Big-endian 32-bit words from a byte list. -/
def bytesToWords (l : List Nat) : List Nat :=
  (chunksF 4 l.length l).map (fun c =>
    c.getD 0 0 * 16777216 + c.getD 1 0 * 65536 + c.getD 2 0 * 256 + c.getD 3 0)

/-- Big-endian 8-byte encoding of a length in bits. -/
def len64 (n : Nat) : List Nat :=
  [n / 2 ^ 56 % 256, n / 2 ^ 48 % 256, n / 2 ^ 40 % 256, n / 2 ^ 32 % 256,
   n / 2 ^ 24 % 256, n / 2 ^ 16 % 256, n / 2 ^ 8 % 256, n % 256]

/-- SHA-1 padding: a 0x80 byte, zeros to 56 mod 64, the bit length. -/
def sha1Pad (msg : List Nat) : List Nat :=
  msg ++ [128] ++ List.replicate ((119 - msg.length % 64) % 64) 0 ++ len64 (msg.length * 8)

/-- The five-word SHA-1 state. -/
structure Sha1State where
  a : Nat
  b : Nat
  c : Nat
  d : Nat
  e : Nat

/-- SHA-1 round function per round group. -/
def sha1F (t b c d : Nat) : Nat :=
  if t < 20 then (b &&& c) ||| ((b ^^^ 4294967295) &&& d)
  else if t < 40 then b ^^^ c ^^^ d
  else if t < 60 then (b &&& c) ||| (b &&& d) ||| (c &&& d)
  else b ^^^ c ^^^ d

/-- SHA-1 round constants. -/
def sha1K (t : Nat) : Nat :=
  if t < 20 then 1518500249
  else if t < 40 then 1859775393
  else if t < 60 then 2400959708
  else 3395469782

/-- The 80-word SHA-1 message schedule of one block. -/
def sha1Schedule (ws : List Nat) : List Nat :=
  (List.range 80).foldl (fun w t =>
    if t < 16 then w ++ [ws.getD t 0]
    else w ++ [rotl32 1 (w.getD (t - 3) 0 ^^^ w.getD (t - 8) 0 ^^^ w.getD (t - 14) 0 ^^^ w.getD (t - 16) 0)]) []

/-- One SHA-1 round. -/
def sha1Round (w : List Nat) (s : Sha1State) (t : Nat) : Sha1State :=
  let temp := (rotl32 5 s.a + sha1F t s.b s.c s.d + s.e + sha1K t + w.getD t 0) % 4294967296
  ⟨temp, s.a, rotl32 30 s.b, s.c, s.d⟩

/-- SHA-1 compression of one 64-byte block. -/
def sha1Compress (h : Sha1State) (block : List Nat) : Sha1State :=
  let w := sha1Schedule (bytesToWords block)
  let f := (List.range 80).foldl (sha1Round w) h
  ⟨(h.a + f.a) % 4294967296, (h.b + f.b) % 4294967296, (h.c + f.c) % 4294967296,
   (h.d + f.d) % 4294967296, (h.e + f.e) % 4294967296⟩

/-- Serialize the final state as twenty big-endian bytes. -/
def sha1Output (h : Sha1State) : List Nat :=
  [h.a / 2 ^ 24 % 256, h.a / 2 ^ 16 % 256, h.a / 2 ^ 8 % 256, h.a % 256,
   h.b / 2 ^ 24 % 256, h.b / 2 ^ 16 % 256, h.b / 2 ^ 8 % 256, h.b % 256,
   h.c / 2 ^ 24 % 256, h.c / 2 ^ 16 % 256, h.c / 2 ^ 8 % 256, h.c % 256,
   h.d / 2 ^ 24 % 256, h.d / 2 ^ 16 % 256, h.d / 2 ^ 8 % 256, h.d % 256,
   h.e / 2 ^ 24 % 256, h.e / 2 ^ 16 % 256, h.e / 2 ^ 8 % 256, h.e % 256]

/-- SHA-1 of a byte list. -/
def sha1 (msg : List Nat) : List Nat :=
  let padded := sha1Pad msg
  sha1Output ((chunksF 64 padded.length padded).foldl sha1Compress
    ⟨1732584193, 4023233417, 2562383102, 271733878, 3285377520⟩)

/-- HMAC-SHA1 per RFC 2104 with the 64-byte block size. -/
def hmacSha1 (key msg : List Nat) : List Nat :=
  let k0 := if 64 < key.length then sha1 key else key
  let kp := k0 ++ List.replicate (64 - k0.length) 0
  sha1 ((kp.map (fun b => b ^^^ 92)) ++ sha1 ((kp.map (fun b => b ^^^ 54)) ++ msg))

/-- The standard base64 alphabet. -/
def base64Table : List Char :=
  "ABCDEFGHIJKLMNOPQRSTUVWXYZabcdefghijklmnopqrstuvwxyz0123456789+/".data

/-- Character of one 6-bit group. -/
def b64Char (n : Nat) : Char := base64Table.getD n 'A'

/-- Characters of the standard padded base64 encoding. -/
def base64Chars : List Nat → List Char
  | b1 :: b2 :: b3 :: rest =>
    b64Char (b1 / 4) :: b64Char (b1 % 4 * 16 + b2 / 16)
      :: b64Char (b2 % 16 * 4 + b3 / 64) :: b64Char (b3 % 64) :: base64Chars rest
  | [b1, b2] => [b64Char (b1 / 4), b64Char (b1 % 4 * 16 + b2 / 16), b64Char (b2 % 16 * 4), '=']
  | [b1] => [b64Char (b1 / 4), b64Char (b1 % 4 * 16), '=', '=']
  | [] => []

/-- Standard padded base64 encoding of a byte list. -/
def base64Encode (l : List Nat) : String := String.mk (base64Chars l)

/-- Embeds `hash` of `src/oauth1.ts` (lines 250-252), the node built-in
`createHmac("sha1", key).update(base).digest("base64")` modelled by the
implementation above over the UTF-8 bytes of key and base. -/
def hash (base key : String) : String :=
  base64Encode (hmacSha1 (utf8Bytes key) (utf8Bytes base))

/-- Embeds `getSignature` of `src/oauth1.ts` (lines 102-112). -/
def getSignature (request : OAuth1RequestOptions) (consumerSecret : String)
    (tokenSecret : Option String) (oauthInfo : List (String × PVal)) : String :=
  hash (getBaseString request oauthInfo) (getSigningKey consumerSecret tokenSecret)

/-! ## oauth1.ts: authorize and the Authorization header -/

/-- Embeds the `OAuth1AuthInfo` type of `src/oauth1.ts`: the fully
populated OAuth parameter set.  `oauth_timestamp` is a number in the
source; JavaScript renders it in decimal wherever it meets a string. -/
structure OAuth1AuthInfo where
  oauth_consumer_key : String
  oauth_nonce : String
  oauth_signature_method : String
  oauth_timestamp : Nat
  oauth_version : String
  oauth_token : String
  oauth_signature : String
deriving DecidableEq

/-- The property list of a fully populated `OAuth1AuthInfo` object in the
insertion order `authorizeOAuth1` creates it. -/
def oauthInfoEntries (i : OAuth1AuthInfo) : List (String × PVal) :=
  [("oauth_consumer_key", PVal.str i.oauth_consumer_key),
   ("oauth_nonce", PVal.str i.oauth_nonce),
   ("oauth_signature_method", PVal.str i.oauth_signature_method),
   ("oauth_timestamp", PVal.str (Nat.repr i.oauth_timestamp)),
   ("oauth_version", PVal.str i.oauth_version),
   ("oauth_token", PVal.str i.oauth_token),
   ("oauth_signature", PVal.str i.oauth_signature)]

/-- Coercion of a parameter value to a string, as JavaScript string
concatenation does (an array joins its elements with commas). -/
def pvalAsString : PVal → String
  | PVal.str s => s
  | PVal.arr l => sepJoin "," l

/-- Embeds `toHeader` of `src/oauth1.ts` (lines 66-86): sort the entries,
keep only keys prefixed `oauth_`, render each as
`percentEncode(key)="percentEncode(value)"` followed by a comma, and slice
off the final comma.  The result is the Authorization header value. -/
def toHeader (oauthInfo : List (String × PVal)) : String :=
  let sorted := sortObject oauthInfo
  let header_value := sorted.foldl (fun acc element =>
    if strStartsWith element.1 "oauth_" then
      acc ++ (percentEncode element.1 ++ "=\"" ++ percentEncode (pvalAsString element.2) ++ "\",")
    else acc) "OAuth "
  chopLast header_value

/-- Embeds `authorizeOAuth1` of `src/oauth1.ts` (lines 35-64) with the
nonce and timestamp injected (the source draws them from randomness and
the clock).  Returns the property list of the resulting `OAuth1AuthInfo`
object: `oauth_token` is added only when an access key is present, and the
signature is computed over the parameter set before it is added. -/
def authorizeOAuth1 (nonce : String) (timestamp : Nat) (request : OAuth1RequestOptions)
    (appConsumerTokens : OAuth1Tokens) (accessTokens : PartialOAuth1Tokens) :
    List (String × PVal) :=
  let oauthInfo : List (String × PVal) :=
    [("oauth_consumer_key", PVal.str appConsumerTokens.key),
     ("oauth_nonce", PVal.str nonce),
     ("oauth_signature_method", PVal.str "HMAC-SHA1"),
     ("oauth_timestamp", PVal.str (Nat.repr timestamp)),
     ("oauth_version", PVal.str "1.0")]
  let oauthInfo := match accessTokens.key with
    | some k => oauthInfo ++ [("oauth_token", PVal.str k)]
    | none => oauthInfo
  oauthInfo ++ [("oauth_signature",
    PVal.str (getSignature request appConsumerTokens.secret accessTokens.secret oauthInfo))]

/-! ## request-params.ts: body mode detection -/

/-- Embeds the `TBodyMode` union of `src/types.ts`. -/
inductive TBodyMode where
  | json : TBodyMode
  | url : TBodyMode
  | formData : TBodyMode
  | raw : TBodyMode
deriving DecidableEq

/-- The fields of a parsed `URL` object that `autoDetectBodyType` reads:
`hostname`, `pathname` and `password` (empty unless the URL carries
`user:password@` credentials). -/
structure URLm where
  hostname : String
  pathname : String
  password : String
deriving DecidableEq

/-- Embeds `JSON_1_1_ENDPOINTS` of `src/request-params.ts` (lines 14-20). -/
def JSON_1_1_ENDPOINTS : List String :=
  ["direct_messages/events/new.json",
   "direct_messages/welcome_messages/new.json",
   "direct_messages/welcome_messages/rules/new.json",
   "media/metadata/create.json",
   "collections/entries/curate.json"]

/-- Embeds `autoDetectBodyType` of `src/request-params.ts` (lines 34-58)
exactly as written: note that the OAuth2 sub-path test reads
`url.password`, not `url.pathname`.  The legacy branch takes
`url.pathname.split("/1.1/", 2)[1]`; an absent second part never matches
the allow-list, as `Set.has(undefined)` is false. -/
def autoDetectBodyType (url : URLm) : TBodyMode :=
  if strStartsWith url.pathname "/2/" ∨ strStartsWith url.pathname "/labs/2/" then
    if strStartsWith url.password "/2/oauth2" then TBodyMode.url
    else TBodyMode.json
  else if url.hostname = "upload.twitter.com" then
    if url.pathname = "/1.1/media/upload.json" then TBodyMode.formData
    else TBodyMode.json
  else
    let parts := strSplit url.pathname "/1.1/"
    if 2 ≤ parts.length ∧ JSON_1_1_ENDPOINTS.contains (parts.getD 1 "") then TBodyMode.json
    else TBodyMode.url

/-! ## request-params.ts: bodies, headers and serialization -/

/-- Value of one body property: a string or a node `Buffer`. -/
inductive BodyEntryVal where
  | str : String → BodyEntryVal
  | buf : List Nat → BodyEntryVal
deriving DecidableEq

/-- Embeds `TRequestBody` of `src/types.ts`: a record (whose properties may
be explicitly `undefined`, modelled as `none`) or a `Buffer`. -/
inductive TRequestBody where
  | buffer : List Nat → TRequestBody
  | record : List (String × Option BodyEntryVal) → TRequestBody
deriving DecidableEq

/-- Header maps are string-valued objects. -/
def Headers := List (String × String)

/-- Lookup in a header map. -/
def hdrLookup (headers : List (String × String)) (k : String) : Option String :=
  (headers.find? (fun p => p.1 = k)).map (fun p => p.2)

/-- Modelling `headers[k] = v` on an object. -/
def hdrSet (headers : List (String × String)) (k v : String) : List (String × String) :=
  if headers.any (fun p => p.1 = k) then
    headers.map (fun p => if p.1 = k then (k, v) else p)
  else headers ++ [(k, v)]

/-- Modelling `if (!headers[k]) headers[k] = v`: JavaScript truthiness, so
an absent header and an empty-string header are both overwritten. -/
def hdrSetIfFalsy (headers : List (String × String)) (k v : String) : List (String × String) :=
  match hdrLookup headers k with
  | some existing => if existing = "" then hdrSet headers k v else headers
  | none => hdrSet headers k v

/-- Minimal JSON string escaping (backslash and double quote), enough for
`JSON.stringify` on the flat string records the engine serializes. -/
def jsonEscapeChar (c : Char) : List Char :=
  if c = '\\' then ['\\', '\\'] else if c = '"' then ['\\', '"'] else [c]

/-- JSON rendering of one string. -/
def jsonString (s : String) : String :=
  "\"" ++ String.mk ((s.data.map jsonEscapeChar).flatten) ++ "\""

/-- Model of `JSON.stringify` on a flat record: properties in insertion
order, `undefined` properties omitted, `Buffer` values rendered in the
node `\x7b"type":"Buffer","data":[..]\x7d` shape. -/
def jsonStringify (entries : List (String × Option BodyEntryVal)) : String :=
  "\x7b" ++ sepJoin ","
    ((entries.filter (fun p => ¬ (p.2 = none))).map (fun p =>
      jsonString p.1 ++ ":" ++
        match p.2 with
        | some (BodyEntryVal.str s) => jsonString s
        | some (BodyEntryVal.buf bs) =>
            "\x7b\"type\":\"Buffer\",\"data\":[" ++ sepJoin "," (bs.map Nat.repr) ++ "]\x7d"
        | none => "null")) ++ "\x7d"

/-- Bytes kept verbatim by the `application/x-www-form-urlencoded`
serializer of `URLSearchParams`: `A-Z a-z 0-9 * - . _`. -/
def isFormSafeByte (b : Nat) : Bool :=
  (65 ≤ b ∧ b ≤ 90) ∨ (97 ≤ b ∧ b ≤ 122) ∨ (48 ≤ b ∧ b ≤ 57)
    ∨ b = 42 ∨ b = 45 ∨ b = 46 ∨ b = 95

/-- One form-urlencoded token: space becomes `+`, safe bytes stay, every
other byte becomes `%XX`. -/
def formUrlEncode (s : String) : String :=
  String.mk ((utf8Bytes s).map (fun b =>
    if b = 32 then ['+']
    else if isFormSafeByte b then [Char.ofNat b]
    else ['%', hexDigitUpper (b / 16), hexDigitUpper (b % 16)])).flatten

/-- String coercion of a body property value, as `URLSearchParams` applies
it (`String(undefined)` is the text `undefined`; a `Buffer` is decoded as
text, modelled byte-per-character). -/
def bodyValAsString : Option BodyEntryVal → String
  | some (BodyEntryVal.str s) => s
  | some (BodyEntryVal.buf bs) => String.mk (bs.map Char.ofNat)
  | none => "undefined"

/-- Replace every `*` by `%2A`, the post-processing
`.toString().replace(/\*/g, "%2A")` applies in the url branch. -/
def replaceStar (s : String) : String :=
  String.mk (s.data.map (fun c => if c = '*' then ['%', '2', 'A'] else [c])).flatten

/-- Model of `new URLSearchParams(record).toString()`. -/
def urlSearchParamsString (entries : List (String × Option BodyEntryVal)) : String :=
  sepJoin "&" (entries.map (fun p => formUrlEncode p.1 ++ "=" ++ formUrlEncode (bodyValAsString p.2)))

/-- The serialized body `constructBodyParams` produces: raw bytes, a
string, or a multipart form. -/
inductive BodyOutput where
  | bytes : List Nat → BodyOutput
  | str : String → BodyOutput
  | form : List (String × String) → BodyOutput
deriving DecidableEq

/-- Embeds `generateFormBoundary` of `src/request-params.ts` (lines
185-192) over an injected digit stream standing for `Math.random()`: 26
dashes followed by 24 decimal digits (each `Math.floor(random * 10)`
rendered by `toString(16)`, which on 0..9 is the plain digit). -/
def generateFormBoundary (rand : Nat → Nat) : String :=
  "--------------------------" ++ String.mk ((List.range 24).map (fun i => Char.ofNat (48 + rand i % 10)))

/-- Embeds the module-level constant `FORM_BOUNDARY` of
`src/request-params.ts` (line 10): `generateFormBoundary()` evaluated once
with the randomness available when the module loads. -/
def FORM_BOUNDARY (loadRand : Nat → Nat) : String := generateFormBoundary loadRand

/-- Embeds `getFormHeaders` of `src/request-params.ts` (lines 179-183).
`callRand` stands for the fresh randomness available at the moment of the
call; the source never consults it and reads the memoized module constant
instead. -/
def getFormHeaders (loadRand : Nat → Nat) (callRand : Nat → Nat) : List (String × String) :=
  [("content-type", "multipart/form-data; boundary=" ++ FORM_BOUNDARY loadRand)]

/-- Embeds `constructBodyParams` of `src/request-params.ts` (lines
70-113).  A `Buffer` body returns as is before any mode dispatch; the
`json` and `url` modes serialize to strings, setting a content type when
the present one is falsy; `raw` with a non-`Buffer` body throws; the
remaining mode builds a multipart form.  The result pairs the produced
body with the updated header map; a thrown error is `Except.error` of the
message. -/
def constructBodyParams (body : TRequestBody) (headers : List (String × String))
    (mode : TBodyMode) (loadRand callRand : Nat → Nat) :
    Except String (BodyOutput × List (String × String)) :=
  match body with
  | TRequestBody.buffer bs => Except.ok (BodyOutput.bytes bs, headers)
  | TRequestBody.record entries =>
    match mode with
    | TBodyMode.json =>
      Except.ok (BodyOutput.str (jsonStringify entries),
        hdrSetIfFalsy headers "content-type" "application/json;charset=UTF-8")
    | TBodyMode.url =>
      let headers := hdrSetIfFalsy headers "content-type"
        "application/x-www-form-urlencoded;charset=UTF-8"
      if entries.length ≠ 0 then
        Except.ok (BodyOutput.str (replaceStar (urlSearchParamsString entries)), headers)
      else Except.ok (BodyOutput.str "", headers)
    | TBodyMode.raw =>
      Except.error "You can only use raw body mode with Buffers. To give a string, use Buffer.from(str)."
    | TBodyMode.formData =>
      let form := entries.map (fun p => (p.1, bodyValAsString p.2))
      let headers := match hdrLookup headers "content-type" with
        | some existing => if existing = "" then hdrSet headers "content-type"
            (hdrLookup (getFormHeaders loadRand callRand) "content-type").get! else headers
        | none => hdrSet headers "content-type"
            (hdrLookup (getFormHeaders loadRand callRand) "content-type").get!
      Except.ok (BodyOutput.form form, headers)

/-- Embeds `isOAuthSerializable` of `src/request-params.ts` (lines
127-129): everything except a `Buffer`. -/
def isOAuthSerializable : Option BodyEntryVal → Bool
  | some (BodyEntryVal.buf _) => false
  | _ => true

/-- Embeds `mergeQueryAndBodyForOAuth` of `src/request-params.ts` (lines
131-156): copy the query, then overlay every body property whose value is
OAuth-serializable (strings keep their value; the `toString` duck-typing
leaves strings unchanged).  A `Buffer` body contributes nothing.  The
callers run it after undefined properties have been deleted, so `none`
values do not occur. -/
def mergeQueryAndBodyForOAuth (query : List (String × PVal)) (body : TRequestBody) :
    List (String × PVal) :=
  match body with
  | TRequestBody.buffer _ => query
  | TRequestBody.record entries =>
    entries.foldl (fun acc p =>
      match p.2 with
      | some (BodyEntryVal.str s) => jsSet acc p.1 (PVal.str s)
      | _ => acc) query

/-! ## The orchestrator of `src/unnamed/part_000` -/

/-- Embeds `BODY_METHODS` of `src/unnamed/part_000` (line 30). -/
def BODY_METHODS : List String := ["POST", "PUT", "PATCH"]

/-- Embeds the auth decision of `getFormattedRequestArgs`
(`src/unnamed/part_000`, line 234): body parameters join the signature
exactly for a write method with url-encoded body mode. -/
def bodyInSignatureFor (method : String) (bodyType : TBodyMode) : Bool :=
  BODY_METHODS.contains method ∧ bodyType = TBodyMode.url

/-- Embeds the data selection of `writeOauthHeaders`
(`src/unnamed/part_000`, line 275): the signed parameter set is the merged
query and body when `bodyInSignature` holds, the query alone otherwise. -/
def oauthSignedData (bodyInSignature : Bool) (query : List (String × PVal))
    (body : TRequestBody) : List (String × PVal) :=
  if bodyInSignature then mergeQueryAndBodyForOAuth query body else query

/-- Embeds `writeOauthHeaders` of `src/unnamed/part_000` (lines 262-290)
with nonce and timestamp injected: select the signed data, authorize, and
spread the resulting Authorization header over a copy of the headers. -/
def writeOauthHeaders (nonce : String) (timestamp : Nat)
    (headers : List (String × String)) (bodyInSignature : Bool) (url : String)
    (method : String) (query : List (String × PVal)) (body : TRequestBody)
    (appConsumerTokens : OAuth1Tokens) (accessTokens : PartialOAuth1Tokens) :
    List (String × String) :=
  let data := oauthSignedData bodyInSignature query body
  let auth := authorizeOAuth1 nonce timestamp ⟨url, method, data⟩ appConsumerTokens accessTokens
  hdrSet headers "Authorization" (toHeader auth)

/-- Modelling `delete rawBody[parameter]` on a record. -/
def jsDeleteProp (l : List (String × Option BodyEntryVal)) (k : String) :
    List (String × Option BodyEntryVal) :=
  l.filter (fun p => ¬ (p.1 = k))

/-- Lookup in a record body. -/
def bodyLookup (l : List (String × Option BodyEntryVal)) (k : String) :
    Option (Option BodyEntryVal) :=
  (l.find? (fun p => p.1 = k)).map (fun p => p.2)

/-- Embeds the undefined-parameter sweep of `getFormattedRequestArgs`
(`src/unnamed/part_000`, lines 221-226): iterate over the properties of
the caller-supplied body object and delete, in place, every property whose
value is `undefined`.  The iteration order is the property order; the fold
carries the mutated object. -/
def deleteUndefinedParameters (l : List (String × Option BodyEntryVal)) :
    List (String × Option BodyEntryVal) :=
  (l.map (fun p => p.1)).foldl (fun acc k =>
    if bodyLookup acc k = some none then jsDeleteProp acc k else acc) l

/-- The caller-visible state of the `body` argument after
`getFormattedRequestArgs` returns: the undefined-parameter sweep is the
only statement of the function that writes to the caller-supplied object
(a `Buffer` body is left untouched by the guard on line 222). -/
def getFormattedRequestArgsBodyState (rawBody : TRequestBody) : TRequestBody :=
  match rawBody with
  | TRequestBody.buffer bs => TRequestBody.buffer bs
  | TRequestBody.record l => TRequestBody.record (deleteUndefinedParameters l)

/-- Discriminator for a thrown error result. -/
def exceptIsError : Except ε α → Bool
  | Except.error _ => true
  | Except.ok _ => false

/-- Discriminator for a `Buffer` body. -/
def TRequestBody.isBuffer : TRequestBody → Bool
  | TRequestBody.buffer _ => true
  | TRequestBody.record _ => false

/-! ## Spec-side descriptions used for refinement statements

The following definitions transcribe the wording of the spec (not the
source); theorems below compare the source embeddings against them. -/

/-- Spec wording for one canonical entry: a scalar is one `key=value`
pair; a sequence yields one pair per element in sorted element order. -/
def expandPair (p : String × PVal) : List (String × String) :=
  match p.2 with
  | PVal.str v => [(p.1, v)]
  | PVal.arr vs => (sortByLe strLe vs).map (fun v => (p.1, v))

/-- Spec wording for the canonical parameter list: every entry expanded
into individual pairs. -/
def expandedPairs (entries : List (String × PVal)) : List (String × String) :=
  (entries.map expandPair).flatten

/-- Lexicographic order on produced pairs: by key, ties broken by value. -/
def pairLexLe (a b : String × String) : Prop :=
  strLe a.1 b.1 = true ∧ (a.1 = b.1 → strLe a.2 b.2 = true)

/-- Spec wording for the Authorization header (section 4.6): the sorted,
filtered, rendered pairs joined by a comma and a space. -/
def specHeaderCommaSpace (oauthInfo : List (String × PVal)) : String :=
  "OAuth " ++ sepJoin ", "
    (((sortObject oauthInfo).filter (fun e => strStartsWith e.1 "oauth_")).map
      (fun e => percentEncode e.1 ++ "=\"" ++ percentEncode (pvalAsString e.2) ++ "\""))

/-! # Theorems

General string lemmas first, then one theorem per claim. -/

theorem string_join_nil : String.join ([] : List String) = "" := by
  apply String.ext
  simp [String.join_eq]

theorem string_join_cons (s : String) (l : List String) :
    String.join (s :: l) = s ++ String.join l := by
  apply String.ext
  simp [String.join_eq, String.data_append]

theorem str_append_empty (s : String) : s ++ "" = s := by
  apply String.ext
  simp [String.data_append]

/-- A guarded appending fold is the join of the rendered, filtered list. -/
theorem foldl_append_guard {α : Type} (p : α → Bool) (f : α → String) (l : List α)
    (init : String) :
    l.foldl (fun acc e => if p e then acc ++ f e else acc) init
      = init ++ String.join ((l.filter p).map f) := by
  induction l generalizing init with
  | nil => simp [string_join_nil, str_append_empty]
  | cons x t ih =>
    cases hp : p x with
    | false =>
      simp only [List.foldl_cons, hp, Bool.false_eq_true, if_false, List.filter_cons]
      exact ih init
    | true =>
      simp only [List.foldl_cons, hp, if_true, List.filter_cons, List.map_cons]
      rw [ih (init ++ f x), string_join_cons, String.append_assoc]

/-- Chopping the final character of a join of single-character-terminated
pieces yields the separator-joined pieces. -/
theorem chopLast_trailing (c : Char) (init : String) (l : List String) (h : l ≠ []) :
    chopLast (init ++ String.join (l.map (fun s => s ++ String.mk [c])))
      = init ++ sepJoin (String.mk [c]) l := by
  induction l generalizing init with
  | nil => exact absurd rfl h
  | cons x t ih =>
    cases t with
    | nil =>
      apply String.ext
      simp [chopLast, String.data_append, String.join_eq, sepJoin,
        ← List.append_assoc, List.dropLast_concat]
    | cons y t2 =>
      rw [List.map_cons, string_join_cons, ← String.append_assoc,
        ih (init ++ (x ++ String.mk [c])) (by simp)]
      simp [sepJoin, String.append_assoc]

theorem str_empty_append (s : String) : "" ++ s = s := by
  apply String.ext
  simp [String.data_append]

theorem string_join_append (l1 l2 : List String) :
    String.join (l1 ++ l2) = String.join l1 ++ String.join l2 := by
  apply String.ext
  simp [String.join_eq, String.data_append]

theorem charListLe_refl (l : List Char) : charListLe l l = true := by
  induction l with
  | nil => rfl
  | cons c t ih => simp [charListLe, ih]

theorem strLe_refl (a : String) : strLe a a = true := charListLe_refl a.data

/-- The always-true separator guard of the array loop: the loop is the
plain join of ampersand-terminated pairs. -/
theorem arrLoop_join (k : String) (len : Nat) (vs : List String) (i : Nat)
    (h : i + vs.length ≤ len) :
    arrLoop k len i vs = String.join (vs.map (fun v => k ++ "=" ++ v ++ "&")) := by
  induction vs generalizing i with
  | nil => simp [arrLoop, string_join_nil]
  | cons v rest ih =>
    have hi : i < len := by
      have := h
      simp only [List.length_cons] at this
      omega
    rw [List.map_cons, string_join_cons, ← ih (i + 1) (by simp only [List.length_cons] at h; omega)]
    simp [arrLoop, hi]

/-- One serialized entry is the join of its expanded pairs. -/
theorem entryString_expand (p : String × PVal) :
    entryString p = String.join ((expandPair p).map (fun q => q.1 ++ "=" ++ q.2 ++ "&")) := by
  obtain ⟨k, v⟩ := p
  cases v with
  | str s =>
    simp [entryString, expandPair, string_join_cons, string_join_nil, str_append_empty]
  | arr vs =>
    rw [show entryString (k, PVal.arr vs)
        = arrLoop k (sortByLe strLe vs).length 0 (sortByLe strLe vs) from rfl,
      arrLoop_join k (sortByLe strLe vs).length (sortByLe strLe vs) 0 (by omega)]
    simp only [expandPair, List.map_map]
    rfl

/-- The concatenated pieces of the serialization loop are the join of all
expanded pairs. -/
theorem join_entryStrings (entries : List (String × PVal)) :
    String.join (entries.map entryString)
      = String.join ((expandedPairs entries).map (fun q => q.1 ++ "=" ++ q.2 ++ "&")) := by
  induction entries with
  | nil => simp [expandedPairs]
  | cons x t ih =>
    rw [List.map_cons, string_join_cons, ih, entryString_expand]
    show _ = String.join ((expandedPairs (x :: t)).map _)
    rw [show expandedPairs (x :: t) = expandPair x ++ expandedPairs t by
      simp [expandedPairs]]
    rw [List.map_append, string_join_append]

/-- The serialization tail produces the pairs joined by single ampersands
with no trailing separator. -/
theorem serializeEntries_eq (entries : List (String × PVal)) :
    serializeEntries entries
      = sepJoin "&" ((expandedPairs entries).map (fun q => q.1 ++ "=" ++ q.2)) := by
  unfold serializeEntries
  rw [join_entryStrings]
  cases hep : expandedPairs entries with
  | nil =>
    show chopLast (String.join []) = sepJoin "&" []
    simp [string_join_nil, chopLast, sepJoin]
  | cons q qs =>
    have h2 := chopLast_trailing '&' "" ((q :: qs).map (fun r => r.1 ++ "=" ++ r.2))
      (by simp)
    rw [List.map_map] at h2
    rw [str_empty_append, str_empty_append] at h2
    exact h2

theorem mem_expandPair_key {q : String × String} {p : String × PVal}
    (h : q ∈ expandPair p) : q.1 = p.1 := by
  obtain ⟨k, v⟩ := p
  cases v with
  | str s => simp [expandPair] at h; simp [h]
  | arr vs =>
    simp only [expandPair, List.mem_map] at h
    obtain ⟨w, _, rfl⟩ := h
    rfl

theorem expandPair_pairwise (p : String × PVal) : (expandPair p).Pairwise pairLexLe := by
  obtain ⟨k, v⟩ := p
  cases v with
  | str s => simp [expandPair]
  | arr vs =>
    rw [expandPair, List.pairwise_map]
    exact (sortByLe_pairwise strLe strLe_total strLe_trans vs).imp
      (fun h => ⟨strLe_refl k, fun _ => h⟩)

/-- Expanded pairs of a key-sorted, key-distinct entry list are sorted in
the lexicographic pair order. -/
theorem expandedPairs_pairwise (entries : List (String × PVal))
    (hsorted : entries.Pairwise (fun a b => strLe a.1 b.1 = true))
    (hnd : (entries.map Prod.fst).Nodup) :
    (expandedPairs entries).Pairwise pairLexLe := by
  unfold expandedPairs
  rw [List.pairwise_flatten]
  constructor
  · intro l hl
    obtain ⟨p, _, rfl⟩ := List.mem_map.mp hl
    exact expandPair_pairwise p
  · rw [List.pairwise_map]
    have hne : entries.Pairwise (fun a b => a.1 ≠ b.1) := List.pairwise_map.mp hnd
    refine (hsorted.and hne).imp ?_
    rintro a b ⟨hle, hdiff⟩ x hx y hy
    have hxa := mem_expandPair_key hx
    have hyb := mem_expandPair_key hy
    refine ⟨by rw [hxa, hyb]; exact hle, fun hxy => absurd ?_ hdiff⟩
    rw [← hxa, ← hyb]; exact hxy

/-- C2: for every merged parameter map, the canonical parameter string is
the list of pairs sorted lexicographically by percent-encoded key with
ties broken by encoded value, an array-valued key expanded into one
key=value pair per element in sorted element order, all joined by single
ampersands with no trailing separator; in particular the map
a maps-to [2, 1], b maps-to x serializes as a=1&a=2&b=x. -/
theorem canonicalParamString_spec (merged : List (String × PVal))
    (hnd : ((percentEncodeData merged).map Prod.fst).Nodup) :
    canonicalParamString merged
      = sepJoin "&" ((expandedPairs (sortObject (percentEncodeData merged))).map
          (fun q => q.1 ++ "=" ++ q.2))
    ∧ (expandedPairs (sortObject (percentEncodeData merged))).Pairwise pairLexLe
    ∧ canonicalParamString [("a", PVal.arr ["2", "1"]), ("b", PVal.str "x")]
        = "a=1&a=2&b=x" := by
  refine ⟨serializeEntries_eq _, ?_, by decide⟩
  apply expandedPairs_pairwise
  · exact sortByLe_pairwise (fun a b : String × PVal => strLe a.1 b.1)
      (fun a b => strLe_total a.1 b.1) (fun a b c => strLe_trans a.1 b.1 c.1) _
  · have hperm := sortByLe_perm (fun a b : String × PVal => strLe a.1 b.1)
      (percentEncodeData merged)
    exact ((hperm.map Prod.fst).symm).nodup hnd

theorem quote_comma_split : ("\"," : String) = "\"" ++ "," := rfl

/-- C3 amended: the Authorization header value is prefixed `OAuth `,
contains exactly the `oauth_`-prefixed entries sorted by key, each
rendered as `percentEncode(key)="percentEncode(value)"`, with consecutive
pairs separated by a single comma (no space) and no trailing separator. -/
theorem toHeader_sorted_comma_joined (i : OAuth1AuthInfo) :
    toHeader (oauthInfoEntries i)
      = "OAuth " ++ sepJoin ","
          [percentEncode "oauth_consumer_key" ++ "=\"" ++ percentEncode i.oauth_consumer_key ++ "\"",
           percentEncode "oauth_nonce" ++ "=\"" ++ percentEncode i.oauth_nonce ++ "\"",
           percentEncode "oauth_signature" ++ "=\"" ++ percentEncode i.oauth_signature ++ "\"",
           percentEncode "oauth_signature_method" ++ "=\"" ++ percentEncode i.oauth_signature_method ++ "\"",
           percentEncode "oauth_timestamp" ++ "=\"" ++ percentEncode (Nat.repr i.oauth_timestamp) ++ "\"",
           percentEncode "oauth_token" ++ "=\"" ++ percentEncode i.oauth_token ++ "\"",
           percentEncode "oauth_version" ++ "=\"" ++ percentEncode i.oauth_version ++ "\""] := by
  have h := chopLast_trailing ',' "OAuth "
    [percentEncode "oauth_consumer_key" ++ "=\"" ++ percentEncode i.oauth_consumer_key ++ "\"",
     percentEncode "oauth_nonce" ++ "=\"" ++ percentEncode i.oauth_nonce ++ "\"",
     percentEncode "oauth_signature" ++ "=\"" ++ percentEncode i.oauth_signature ++ "\"",
     percentEncode "oauth_signature_method" ++ "=\"" ++ percentEncode i.oauth_signature_method ++ "\"",
     percentEncode "oauth_timestamp" ++ "=\"" ++ percentEncode (Nat.repr i.oauth_timestamp) ++ "\"",
     percentEncode "oauth_token" ++ "=\"" ++ percentEncode i.oauth_token ++ "\"",
     percentEncode "oauth_version" ++ "=\"" ++ percentEncode i.oauth_version ++ "\""] (by simp)
  rw [← h]
  show chopLast (List.foldl (fun acc element =>
      if strStartsWith element.1 "oauth_" then
        acc ++ (percentEncode element.1 ++ "=\"" ++ percentEncode (pvalAsString element.2) ++ "\",")
      else acc) "OAuth " (sortObject (oauthInfoEntries i))) = _
  rw [foldl_append_guard (fun e => strStartsWith e.1 "oauth_")
    (fun e => percentEncode e.1 ++ "=\"" ++ percentEncode (pvalAsString e.2) ++ "\",")
    (sortObject (oauthInfoEntries i)) "OAuth "]
  congr 2
  rw [show (sortObject (oauthInfoEntries i)).filter (fun e => strStartsWith e.1 "oauth_") =
    [("oauth_consumer_key", PVal.str i.oauth_consumer_key),
     ("oauth_nonce", PVal.str i.oauth_nonce),
     ("oauth_signature", PVal.str i.oauth_signature),
     ("oauth_signature_method", PVal.str i.oauth_signature_method),
     ("oauth_timestamp", PVal.str (Nat.repr i.oauth_timestamp)),
     ("oauth_token", PVal.str i.oauth_token),
     ("oauth_version", PVal.str i.oauth_version)] from rfl]
  simp only [List.map_cons, List.map_nil]
  simp [pvalAsString, quote_comma_split, String.append_assoc]

set_option maxRecDepth 4000 in
/-- C3 counterexample: at a concrete fully populated parameter set the
produced header separates pairs with a bare comma, which differs from the
comma-space rendition the claim asserts. -/
theorem toHeader_comma_space_counterexample :
    toHeader (oauthInfoEntries ⟨"ck", "n", "HMAC-SHA1", 1700000000, "1.0", "tok", "sig"⟩)
      = "OAuth oauth_consumer_key=\"ck\",oauth_nonce=\"n\",oauth_signature=\"sig\",oauth_signature_method=\"HMAC-SHA1\",oauth_timestamp=\"1700000000\",oauth_token=\"tok\",oauth_version=\"1.0\""
    ∧ toHeader (oauthInfoEntries ⟨"ck", "n", "HMAC-SHA1", 1700000000, "1.0", "tok", "sig"⟩)
      ≠ specHeaderCommaSpace
          (oauthInfoEntries ⟨"ck", "n", "HMAC-SHA1", 1700000000, "1.0", "tok", "sig"⟩) :=
  ⟨by decide, by decide⟩

/-! Lemmas about the head of a JavaScript split, for the base URL claim. -/

theorem splitSeq_ne_nil (sep : List Char) (fuel : Nat) (l : List Char) :
    splitSeq sep fuel l ≠ [] := by
  cases fuel with
  | zero => simp [splitSeq]
  | succ f =>
    cases l with
    | nil => simp [splitSeq]
    | cons c rest =>
      by_cases h : sep.isPrefixOf (c :: rest)
      · simp [splitSeq, h]
      · simp only [splitSeq, h, Bool.false_eq_true, if_false]
        cases splitSeq sep f rest <;> simp

/-- A split on a character absent from the list returns the list whole. -/
theorem splitSeq_no_sep (c : Char) (fuel : Nat) (l : List Char) (hn : ¬ c ∈ l) :
    splitSeq [c] fuel l = [l] := by
  induction fuel generalizing l with
  | zero => rfl
  | succ f ih =>
    cases l with
    | nil => rfl
    | cons x rest =>
      have hxc : ¬ (c == x) = true := by
        simp only [beq_iff_eq]
        intro h
        exact hn (h ▸ List.mem_cons_self x rest)
      have hpre : ([c].isPrefixOf (x :: rest)) = false := by
        simp only [List.isPrefixOf, Bool.and_eq_true] at *
        cases h : (c == x) <;> simp_all [List.isPrefixOf]
      rw [splitSeq, hpre]
      simp only [Bool.false_eq_true, if_false]
      rw [ih rest (fun h => hn (List.mem_cons_of_mem x h))]

/-- The head of a split at the first separator occurrence is the prefix
before it. -/
theorem splitSeq_headD (c : Char) (pre post : List Char) (hn : ¬ c ∈ pre) :
    ∀ fuel, pre.length + 1 + post.length ≤ fuel →
      (splitSeq [c] fuel (pre ++ c :: post)).headD [] = pre := by
  induction pre with
  | nil =>
    intro fuel hf
    cases fuel with
    | zero => omega
    | succ f =>
      have hpre : ([c].isPrefixOf (c :: post)) = true := by
        simp [List.isPrefixOf]
      simp [splitSeq, hpre]
  | cons x pre' ih =>
    intro fuel hf
    cases fuel with
    | zero => simp at hf
    | succ f =>
      have hxc : ¬ (c == x) = true := by
        simp only [beq_iff_eq]
        intro h
        exact hn (h ▸ List.mem_cons_self x pre')
      have hpre : ([c].isPrefixOf (x :: (pre' ++ c :: post))) = false := by
        cases h : (c == x) <;> simp_all [List.isPrefixOf]
      rw [show (x :: pre') ++ c :: post = x :: (pre' ++ c :: post) from rfl, splitSeq, hpre]
      simp only [Bool.false_eq_true, if_false]
      have hrec := ih (fun h => hn (List.mem_cons_of_mem x h)) f (by simp at hf; omega)
      cases hsp : splitSeq [c] f (pre' ++ c :: post) with
      | nil => exact absurd hsp (splitSeq_ne_nil _ _ _)
      | cons cur parts =>
        rw [hsp] at hrec
        simp only [List.headD_cons] at hrec
        simp [hrec]

theorem headD_map_mk (l : List (List Char)) :
    ((l.map String.mk).headD "") = String.mk (l.headD []) := by
  cases l <;> rfl

/-- Query stripping of `getBaseUrl`: everything from the first question
mark on is removed. -/
theorem getBaseUrl_strip (pre post : String) (hq : ¬ '?' ∈ pre.data) :
    getBaseUrl (pre ++ "?" ++ post) = pre := by
  unfold getBaseUrl strSplit
  rw [headD_map_mk]
  have hdata : (pre ++ "?" ++ post).data = pre.data ++ '?' :: post.data := by
    simp [String.data_append]
  rw [show ("?" : String).data = ['?'] from rfl, hdata]
  rw [splitSeq_headD '?' pre.data post.data hq _ (by simp [hdata]; omega)]

/-- Without a question mark the URL passes through `getBaseUrl` whole. -/
theorem getBaseUrl_id (url : String) (hq : ¬ '?' ∈ url.data) :
    getBaseUrl url = url := by
  unfold getBaseUrl strSplit
  rw [headD_map_mk, show ("?" : String).data = ['?'] from rfl,
    splitSeq_no_sep '?' url.data.length url.data hq]
  rfl

/-- C5 amended: the signature base string is
`UPPERCASE(method) & percentEncode(baseURL) & percentEncode(parameters)`
where the base URL is the request URL truncated at the first question
mark; a URL without a question mark is kept whole, fragment included. -/
theorem getBaseString_spec (request : OAuth1RequestOptions)
    (oauthInfo : List (String × PVal)) (pre post : String) (hq : ¬ '?' ∈ pre.data) :
    getBaseString request oauthInfo
      = strToUpper request.method ++ "&" ++ percentEncode (getBaseUrl request.url) ++ "&"
        ++ percentEncode (getParameterString request oauthInfo)
    ∧ getBaseUrl (pre ++ "?" ++ post) = pre
    ∧ getBaseUrl pre = pre :=
  ⟨rfl, getBaseUrl_strip pre post hq, getBaseUrl_id pre hq⟩

/-- Witness for C5 at a concrete request and URL. -/
theorem getBaseString_spec_witness :
    (¬ '?' ∈ ("https://api.example.com/2/tweets" : String).data)
    ∧ getBaseUrl ("https://api.example.com/2/tweets" ++ "?" ++ "a=1")
        = "https://api.example.com/2/tweets" :=
  ⟨by decide,
    (getBaseString_spec ⟨"https://api.example.com/2/tweets?a=1", "post", []⟩ []
      "https://api.example.com/2/tweets" "a=1" (by decide)).2.1⟩

/-- C5 counterexample: a fragment with no query string survives in the
base URL, so the base URL is not always scheme, host and path only. -/
theorem getBaseUrl_fragment_counterexample :
    getBaseUrl "https://api.example.com/2/tweets#frag"
      = "https://api.example.com/2/tweets#frag"
    ∧ '#' ∈ (getBaseUrl "https://api.example.com/2/tweets#frag").data
    ∧ ("https://api.example.com/2/tweets#frag" : String)
        ≠ "https://api.example.com/2/tweets" :=
  ⟨by decide, by decide, by decide⟩

/-- Witness for C2 at the concrete map of the spec example. -/
theorem canonicalParamString_spec_witness :
    (((percentEncodeData [("a", PVal.arr ["2", "1"]), ("b", PVal.str "x")]).map
        Prod.fst).Nodup)
    ∧ canonicalParamString [("a", PVal.arr ["2", "1"]), ("b", PVal.str "x")]
        = "a=1&a=2&b=x" :=
  ⟨by decide,
    (canonicalParamString_spec [("a", PVal.arr ["2", "1"]), ("b", PVal.str "x")]
      (by decide)).2.2⟩

/-- C1: the body-mode detector evaluated over the specification table.
The OAuth2-token request selects JSON, not URL-encoded form: the source
tests `url.password` instead of `url.pathname`, and the password of
`https://api.example.com/2/oauth2/token` is empty.  The remaining rows
behave as claimed (the dedicated media-upload host of the source is
`upload.twitter.com`). -/
theorem autoDetectBodyType_eval :
    autoDetectBodyType ⟨"api.example.com", "/2/oauth2/token", ""⟩ = TBodyMode.json
    ∧ autoDetectBodyType ⟨"api.example.com", "/2/tweets", ""⟩ = TBodyMode.json
    ∧ autoDetectBodyType ⟨"api.example.com", "/labs/2/tweets", ""⟩ = TBodyMode.json
    ∧ autoDetectBodyType ⟨"upload.twitter.com", "/1.1/media/upload.json", ""⟩
        = TBodyMode.formData
    ∧ autoDetectBodyType ⟨"upload.twitter.com", "/1.1/media/metadata/create.json", ""⟩
        = TBodyMode.json
    ∧ autoDetectBodyType ⟨"api.example.com", "/1.1/statuses/update.json", ""⟩ = TBodyMode.url
    ∧ autoDetectBodyType ⟨"api.example.com", "/1.1/direct_messages/events/new.json", ""⟩
        = TBodyMode.json := by
  decide

/-- C7: the query parser at the failing input `a=&a=1`.  The first
occurrence of the repeated key decodes to the empty string, the
truthiness guard `if (data[key])` treats it as absent, and the second
occurrence silently overwrites it — no sequence is produced.  With a
truthy first value the parser does build the sequence. -/
theorem deParam_overwrite_eval :
    deParam "a=&a=1" = [("a", PVal.str "1")]
    ∧ deParam "a=0&a=1" = [("a", PVal.arr ["0", "1"])]
    ∧ deParam "k=v1&k=v2&k=v3" = [("k", PVal.arr ["v1", "v2", "v3"])] := by
  decide

/-- C4: body parameters are folded into the signed parameter set exactly
for a write method in url-encoded body mode; in JSON body mode the whole
authorization header computation ignores the body (so under a fixed nonce
and timestamp the signature is unchanged), while in url-encoded mode a
changed body parameter changes the signed parameter set. -/
theorem bodyInSignature_spec :
    (∀ method bodyType, bodyInSignatureFor method bodyType = true
        ↔ (method ∈ BODY_METHODS ∧ bodyType = TBodyMode.url))
    ∧ (∀ nonce timestamp headers url query body body2 consumer access,
        writeOauthHeaders nonce timestamp headers
            (bodyInSignatureFor "POST" TBodyMode.json) url "POST" query body consumer access
          = writeOauthHeaders nonce timestamp headers
            (bodyInSignatureFor "POST" TBodyMode.json) url "POST" query body2 consumer access)
    ∧ oauthSignedData (bodyInSignatureFor "POST" TBodyMode.url) [("q", PVal.str "1")]
          (TRequestBody.record [("status", some (BodyEntryVal.str "hello"))])
        ≠ oauthSignedData (bodyInSignatureFor "POST" TBodyMode.url) [("q", PVal.str "1")]
          (TRequestBody.record [("status", some (BodyEntryVal.str "world"))]) := by
  refine ⟨?_, ?_, by decide⟩
  · intro method bodyType
    simp [bodyInSignatureFor, List.elem_iff]
  · intro nonce timestamp headers url query body body2 consumer access
    rfl

/-- C6: the signing key is
`percentEncode(consumerSecret) & percentEncode(tokenSecret or empty)`,
and the signature is the standard padded base64 encoding of the HMAC-SHA1
of the base string keyed by the signing key: the digest always has twenty
bytes and its base64 rendition has twenty-eight characters ending in the
padding character. -/
theorem getSigningKey_hash_spec :
    (∀ consumerSecret tokenSecret, getSigningKey consumerSecret tokenSecret
        = percentEncode consumerSecret ++ "&" ++ percentEncode (tokenSecret.getD ""))
    ∧ (∀ request consumerSecret tokenSecret oauthInfo,
        getSignature request consumerSecret tokenSecret oauthInfo
          = base64Encode (hmacSha1 (utf8Bytes (getSigningKey consumerSecret tokenSecret))
              (utf8Bytes (getBaseString request oauthInfo))))
    ∧ (∀ key msg, (hmacSha1 key msg).length = 20)
    ∧ (∀ key msg, (base64Encode (hmacSha1 key msg)).length = 28
        ∧ (base64Encode (hmacSha1 key msg)).data.getLast? = some '=') :=
  ⟨fun _ _ => rfl, fun _ _ _ _ => rfl, fun _ _ => rfl, fun _ _ => ⟨rfl, rfl⟩⟩

set_option maxRecDepth 100000 in
/-- Validation of the SHA-1 model against the FIPS 180 test vector. -/
theorem sha1_abc_vector :
    sha1 (utf8Bytes "abc")
      = [169, 153, 62, 54, 71, 6, 129, 106, 186, 62, 37, 113,
         120, 80, 194, 108, 156, 208, 216, 157] := by
  decide

set_option maxRecDepth 100000 in
/-- Validation of the HMAC-SHA1 and base64 models against the well-known
quick-brown-fox vector. -/
theorem hmacSha1_fox_vector :
    base64Encode (hmacSha1 (utf8Bytes "key")
        (utf8Bytes "The quick brown fox jumps over the lazy dog"))
      = "3nybhbi3iqa8ino29wqQcBydtNk=" := by
  decide

/-- C9 amended: the multipart boundary is generated once at module load
and memoized in the module constant; every call of `getFormHeaders`
returns the same content type carrying that process-wide boundary, no
matter what randomness is available at call time. -/
theorem getFormHeaders_memoized (loadRand r1 r2 : Nat → Nat) :
    getFormHeaders loadRand r1 = getFormHeaders loadRand r2
    ∧ getFormHeaders loadRand r1
        = [("content-type", "multipart/form-data; boundary=" ++ FORM_BOUNDARY loadRand)] :=
  ⟨rfl, rfl⟩

/-- C9 counterexample: two formatting calls drawing on visibly different
randomness still carry the same boundary, and no pair of random draws can
make two headers of the same process differ. -/
theorem getFormHeaders_counterexample :
    ((fun _ => 0 : Nat → Nat) 0 ≠ (fun _ => 9 : Nat → Nat) 0)
    ∧ getFormHeaders (fun _ => 3) (fun _ => 0) = getFormHeaders (fun _ => 3) (fun _ => 9)
    ∧ ¬ ∃ r1 r2 : Nat → Nat,
        getFormHeaders (fun _ => 3) r1 ≠ getFormHeaders (fun _ => 3) r2 := by
  refine ⟨by decide, rfl, ?_⟩
  rintro ⟨r1, r2, h⟩
  exact h rfl

/-- C8: body serialization throws exactly when the mode is raw and the
body is not a `Buffer`; a `Buffer` body is returned unmodified (headers
untouched) in every mode, and every other combination returns normally. -/
theorem constructBodyParams_error_spec :
    (∀ body headers mode loadRand callRand,
        exceptIsError (constructBodyParams body headers mode loadRand callRand) = true
          ↔ (mode = TBodyMode.raw ∧ body.isBuffer = false))
    ∧ (∀ bs headers mode loadRand callRand,
        constructBodyParams (TRequestBody.buffer bs) headers mode loadRand callRand
          = Except.ok (BodyOutput.bytes bs, headers)) := by
  constructor
  · intro body headers mode lr cr
    cases body with
    | buffer bs =>
      cases mode <;> simp [constructBodyParams, exceptIsError, TRequestBody.isBuffer]
    | record entries =>
      cases mode with
      | url =>
        cases entries <;> simp [constructBodyParams, exceptIsError, TRequestBody.isBuffer]
      | json => simp [constructBodyParams, exceptIsError, TRequestBody.isBuffer]
      | raw => simp [constructBodyParams, exceptIsError, TRequestBody.isBuffer]
      | formData => simp [constructBodyParams, exceptIsError, TRequestBody.isBuffer]
  · intro bs headers mode lr cr
    rfl

/-! Lemmas for the in-place body mutation claim. -/

theorem bodyLookup_of_mem (l : List (String × Option BodyEntryVal))
    (hnd : (l.map Prod.fst).Nodup) (p : String × Option BodyEntryVal) (hp : p ∈ l) :
    bodyLookup l p.1 = some p.2 := by
  induction l with
  | nil => simp at hp
  | cons q t ih =>
    rw [List.map_cons, List.nodup_cons] at hnd
    rcases List.mem_cons.mp hp with rfl | hpt
    · unfold bodyLookup
      rw [List.find?_cons_of_pos _ (by simp)]
      rfl
    · have hq : ¬ (q.1 = p.1) := fun h => hnd.1 (h ▸ List.mem_map_of_mem Prod.fst hpt)
      unfold bodyLookup
      rw [List.find?_cons_of_neg _ (by simpa using hq)]
      exact ih hnd.2 hpt

theorem filter_nodup_keys (l : List (String × Option BodyEntryVal))
    (q : (String × Option BodyEntryVal) → Bool) (hnd : (l.map Prod.fst).Nodup) :
    ((l.filter q).map Prod.fst).Nodup :=
  List.Nodup.sublist (List.Sublist.map Prod.fst (List.filter_sublist l)) hnd

/-- The delete-as-you-iterate sweep of the source equals a single filter
dropping the undefined-valued properties with keys in the iterated list. -/
theorem deleteLoop_filter (ks : List String) (acc : List (String × Option BodyEntryVal))
    (hnd : (acc.map Prod.fst).Nodup) :
    ks.foldl (fun acc k => if bodyLookup acc k = some none then jsDeleteProp acc k else acc) acc
      = acc.filter (fun p => ¬ (p.1 ∈ ks ∧ p.2 = none)) := by
  induction ks generalizing acc with
  | nil => simp
  | cons k ks ih =>
    rw [List.foldl_cons]
    by_cases hk : bodyLookup acc k = some none
    · rw [if_pos hk, ih (jsDeleteProp acc k) (filter_nodup_keys acc _ hnd)]
      unfold jsDeleteProp
      rw [List.filter_filter]
      apply List.filter_congr
      intro p hp
      by_cases hpk : p.1 = k
      · have hv : p.2 = none := by
          have hb := bodyLookup_of_mem acc hnd p hp
          rw [hpk, hk] at hb
          exact (Option.some_inj.mp hb).symm
        simp [hpk, hv]
      · simp [hpk]
    · rw [if_neg hk, ih acc hnd]
      apply List.filter_congr
      intro p hp
      by_cases hpk : p.1 = k
      · have hb : bodyLookup acc k = some p.2 := hpk ▸ bodyLookup_of_mem acc hnd p hp
        have hv : ¬ p.2 = none := fun h => hk (by rw [hb, h])
        simp [hpk, hv]
      · simp [hpk]

/-- C10: after `getFormattedRequestArgs` returns, the caller-supplied body
record has lost exactly the properties whose value was undefined — the
sweep mutates the argument object itself; a `Buffer` body is untouched. -/
theorem getFormattedRequestArgs_mutates_body (l : List (String × Option BodyEntryVal))
    (bs : List Nat) (hnd : (l.map Prod.fst).Nodup) :
    getFormattedRequestArgsBodyState (TRequestBody.record l)
      = TRequestBody.record (l.filter (fun p => ¬ (p.2 = none)))
    ∧ getFormattedRequestArgsBodyState (TRequestBody.buffer bs) = TRequestBody.buffer bs := by
  refine ⟨?_, rfl⟩
  show TRequestBody.record (deleteUndefinedParameters l) = _
  unfold deleteUndefinedParameters
  rw [deleteLoop_filter (l.map Prod.fst) l hnd]
  congr 1
  apply List.filter_congr
  intro p hp
  have hm : p.1 ∈ l.map Prod.fst := List.mem_map_of_mem Prod.fst hp
  simp [hm]

/-- Witness for C10 at a record with one undefined property. -/
theorem getFormattedRequestArgs_mutates_body_witness :
    ((([("a", some (BodyEntryVal.str "x")), ("b", none)] :
        List (String × Option BodyEntryVal)).map Prod.fst).Nodup)
    ∧ getFormattedRequestArgsBodyState
        (TRequestBody.record [("a", some (BodyEntryVal.str "x")), ("b", none)])
      = TRequestBody.record [("a", some (BodyEntryVal.str "x"))] :=
  ⟨by decide, by
    rw [(getFormattedRequestArgs_mutates_body
      [("a", some (BodyEntryVal.str "x")), ("b", none)] [] (by decide)).1]
    decide⟩

end TwitterOAuth
